import Mathlib

/-!
Verification of the rabbithole-rs query and document-assembly engine.

The definitions below are a shallow embedding of the repository's code:
* `src/rabbithole/src/query/filter.rs` — the RSQL filter engine
  (`RsqlFilterData::new`, `RsqlFilterData::filter`,
  `RsqlFilterData::filter_on_attributes`);
* `src/rabbithole-derive/src/lib.rs` — the code generated by the
  `EntityDecorator` derive for `Entity::included` and
  `SingleEntity::relationships`;
* `src/rabbithole-endpoint-actix/src/lib.rs` — `error_to_response`.

Rust's `HashMap` iteration is modelled by association lists (an explicit
iteration order), `Result` by `Except`, and machine integers by `Int`.
Helper operations of the repository that live outside the provided sources
(`AttributeField::eq_with_str`, `cmp_with_str`, `to_resource_identifier`,
`to_resource`) are modelled from the specification and marked as such.
-/

namespace Rabbithole

/-- Error type, embedding the constructors of `rabbithole::model::error::Error`
that the filter engine and the derive-generated code construct.  Each carries
the context the source attaches (selector, key, raw value, arity). -/
inductive Error where
  | fieldNotExist (selector : String)
  | unsupportedRsqlComparison (symbols : String) (arity : Nat)
  | rsqlFilterOnRelatedNotImplemented
  | relationshipPathNotSupported (key : String)
  | unmatchedFilterItem (key : String) (value : String)
  | invalidFilterType (ty : String)
  | wrongFieldType (arg : String)
  deriving Repr, DecidableEq

/-- Modelled from the spec: attribute values are scalar — "numeric types
compare numerically, strings compare lexically".  The repository stores
attributes as JSON values (`serde_json::Value`); the two scalar shapes the
filter engine compares are covered here. -/
inductive AttrValue where
  | str (s : String)
  | num (n : Int)
  deriving Repr, DecidableEq

/-- An entity's attribute map (`SingleEntity::attributes`), as built by the
derive: field name to value, field names distinct. -/
abbrev Attrs := List (String × AttrValue)

/-- Lookup of a selector in the attribute map (`Attributes::get_field`);
`none` models the `Err(FieldNotExist)` case of the accessor. -/
def getField (attrs : Attrs) (selector : String) : Option AttrValue :=
  attrs.lookup selector

/-- Glob matching with fuel (structural recursion so the kernel can evaluate
it): `'*'` in the pattern matches any run of characters, every other
character matches itself. -/
def globMatchAux : Nat → List Char → List Char → Bool
  | 0, _, _ => false
  | fuel + 1, p, s =>
    match p, s with
    | [], rest => rest.isEmpty
    | '*' :: p', rest =>
      globMatchAux fuel p' rest ||
        (match rest with
         | [] => false
         | _ :: s' => globMatchAux fuel ('*' :: p') s')
    | _ :: _, [] => false
    | c :: p', d :: s' => c == d && globMatchAux fuel p' s'

/-- Glob match of a pattern string against a value string; the fuel bound
`|p| + |s| + 1` suffices because every step shrinks `|p| + |s|`. -/
def globMatch (pattern value : String) : Bool :=
  globMatchAux (pattern.data.length + value.data.length + 1) pattern.data value.data

/-- Numeric interpretation of a nonempty all-digit character list. -/
def digitsToNat (l : List Char) : Option Nat :=
  if !l.isEmpty && l.all Char.isDigit then
    some (l.foldl (fun acc c => acc * 10 + (c.toNat - 48)) 0)
  else none

/-- Integer parsing of a filter argument, modelling Rust's
`str::parse::<i64>`: an optional sign followed by at least one digit. -/
def parseIntStr (s : String) : Option Int :=
  match s.data with
  | '-' :: rest => (digitsToNat rest).map fun n => -(n : Int)
  | '+' :: rest => (digitsToNat rest).map fun n => (n : Int)
  | l => (digitsToNat l).map fun n => (n : Int)

/-- Modelled from the spec: `AttributeField::eq_with_str` — "operators compare
against the argument using the attribute value's native ordering/equality
(numeric types compare numerically, strings compare lexically, with glob-style
`*` supported only for equality)".  The function itself lives in
`rabbithole/src/model/resource.rs`, outside the provided sources.  A string
field compares by glob equality (the filter argument is the pattern); a
numeric field parses the argument and compares, failing with a typed error
when the argument is not numeric. -/
def eqWithStr (field : AttrValue) (arg : String) : Except Error Bool :=
  match field with
  | .str s => .ok (globMatch arg s)
  | .num n =>
    match parseIntStr arg with
    | some m => .ok (n == m)
    | none => .error (.wrongFieldType arg)

/-- Modelled from the spec: `AttributeField::cmp_with_str` — native ordering,
numeric for numbers, lexicographic for strings; a non-numeric argument against
a numeric field is a typed error. -/
def cmpWithStr (field : AttrValue) (arg : String) : Except Error Ordering :=
  match field with
  | .str s => .ok (compare s arg)
  | .num n =>
    match parseIntStr arg with
    | some m => .ok (compare n m)
    | none => .error (.wrongFieldType arg)

/-- Comparison operators of the RSQL grammar (`rsql_rs::ast::comparison`). -/
inductive Comparison where
  | equal
  | notEqual
  | greaterThan
  | greaterThanOrEqual
  | lessThan
  | lessThanOrEqual
  | inSet
  | outSet
  deriving Repr, DecidableEq

/-- Symbol string of each comparison, as carried into
`UnsupportedRsqlComparison` error messages. -/
def Comparison.symbols : Comparison → String
  | .equal => "=="
  | .notEqual => "!="
  | .greaterThan => "=gt="
  | .greaterThanOrEqual => "=ge="
  | .lessThan => "=lt="
  | .lessThanOrEqual => "=le="
  | .inSet => "=in="
  | .outSet => "=out="

/-- Boolean connectives of the RSQL AST (`rsql_rs::ast::Operator`). -/
inductive Operator where
  | and
  | or
  deriving Repr, DecidableEq

/-- Leaf constraint of the RSQL AST (`rsql_rs::ast::constraint::Constraint`):
selector, comparison, argument list. -/
structure Constraint where
  selector : String
  comparison : Comparison
  arguments : List String
  deriving Repr, DecidableEq

/-- RSQL expression AST (`rsql_rs::ast::expr::Expr`). -/
inductive Expr where
  | item (c : Constraint)
  | node (op : Operator) (left : Expr) (right : Expr)
  deriving Repr, DecidableEq

/-- Embedding of `RsqlFilterData::filter_on_attributes`
(`src/rabbithole/src/query/filter.rs:83-150`).  The branch structure, the
arity guards, the `?` propagation, and — deliberately — the `.is_ok()` tests
in the `IN`/`OUT` branches are transcribed exactly as the source has them. -/
def filterOnAttributes (expr : Expr) (entity : Attrs) : Except Error Bool :=
  match expr with
  | .item c =>
    match getField entity c.selector with
    | some field =>
      if c.comparison == .equal && c.arguments.length == 1 then
        eqWithStr field (c.arguments.headD "")
      else if c.comparison == .notEqual && c.arguments.length == 1 then do
        let b ← eqWithStr field (c.arguments.headD "")
        pure (b == false)
      else if c.comparison == .greaterThan && c.arguments.length == 1 then do
        let res ← cmpWithStr field (c.arguments.headD "")
        pure (res == .gt)
      else if c.comparison == .greaterThanOrEqual && c.arguments.length == 1 then do
        let res ← cmpWithStr field (c.arguments.headD "")
        pure (res == .gt || res == .eq)
      else if c.comparison == .lessThan && c.arguments.length == 1 then do
        let res ← cmpWithStr field (c.arguments.headD "")
        pure (res == .lt)
      else if c.comparison == .lessThanOrEqual && c.arguments.length == 1 then do
        let res ← cmpWithStr field (c.arguments.headD "")
        pure (res == .lt || res == .eq)
      else if c.comparison == .inSet then
        pure (c.arguments.any fun s => (eqWithStr field s).isOk)
      else if c.comparison == .outSet then
        pure (!(c.arguments.any fun s => (eqWithStr field s).isOk))
      else
        .error (.unsupportedRsqlComparison c.comparison.symbols c.arguments.length)
    | none => .error (.fieldNotExist c.selector)
  | .node op left right => do
    let l ← filterOnAttributes left entity
    match op with
    | .and => if l then filterOnAttributes right entity else pure false
    | .or => if l then pure true else filterOnAttributes right entity

/-- Embedding of one pass of the loop body of `RsqlFilterData::filter`
(`src/rabbithole/src/query/filter.rs:61-78`): the `filter_map` over the
entity vector for a single `(key, expr)` pair, collected into a `Result`
that stops at the first error.  `ety` is the static `E::ty()` of the
collection's element type. -/
def filterOneKey (ety key : String) (expr : Expr) : List Attrs → Except Error (List Attrs)
  | [] => .ok []
  | r :: rs =>
    match ety == key, filterOnAttributes expr r with
    | true, .ok true => (filterOneKey ety key expr rs).map fun rest => r :: rest
    | true, .ok false => filterOneKey ety key expr rs
    | true, .error err => .error err
    | false, _ => .error .rsqlFilterOnRelatedNotImplemented

/-- The outer loop of `RsqlFilterData::filter`: each `(key, expr)` entry of
the map is applied in turn, errors propagating via `?`. -/
def filterEntries (ety : String) : List (String × Expr) → List Attrs → Except Error (List Attrs)
  | [], es => .ok es
  | (k, expr) :: rest, es =>
    match filterOneKey ety k expr es with
    | .ok es' => filterEntries ety rest es'
    | .error err => .error err

/-- Embedding of `pub struct RsqlFilterData(HashMap<String, Expr>)`; the hash
map is carried as an association list fixing one iteration order. -/
structure RsqlFilterData where
  entries : List (String × Expr)
  deriving Repr, DecidableEq

/-- Embedding of `RsqlFilterData::filter` for a collection whose element type
has `E::ty() = ety`. -/
def RsqlFilterData.filter (d : RsqlFilterData) (ety : String) (es : List Attrs) :
    Except Error (List Attrs) :=
  filterEntries ety d.entries es

/-- Construction loop of `RsqlFilterData::new`
(`src/rabbithole/src/query/filter.rs:44-55`): keys containing `'.'` are
rejected with `RelationshipPathNotSupported`, raw values are parsed with the
pluggable grammar (`parse`, abstracting `RsqlParser::parse_to_node`), a parse
failure is `UnmatchedFilterItem`. -/
def newEntries (parse : String → Option Expr) :
    List (String × String) → Except Error (List (String × Expr))
  | [] => .ok []
  | (k, v) :: rest =>
    if k.data.contains '.' then .error (.relationshipPathNotSupported k)
    else
      match parse v with
      | none => .error (.unmatchedFilterItem k v)
      | some expr => (newEntries parse rest).map fun r => (k, expr) :: r

/-- Embedding of `RsqlFilterData::new`: an empty parameter map yields `none`,
otherwise the parsed map. -/
def RsqlFilterData.new (parse : String → Option Expr) (params : List (String × String)) :
    Except Error (Option RsqlFilterData) :=
  (newEntries parse params).map fun l => if l.isEmpty then none else some ⟨l⟩

/-- Resource identifier `(type, id)`
(`rabbithole::model::resource::ResourceIdentifier`). -/
structure ResourceIdentifier where
  ty : String
  id : String
  deriving Repr, DecidableEq

/-- Identifier data of a relationship
(`rabbithole::model::resource::IdentifierData`): one optional identifier for
to-one, an ordered list for to-many. -/
inductive IdentifierData where
  | single (o : Option ResourceIdentifier)
  | multiple (l : List ResourceIdentifier)
  deriving Repr, DecidableEq

/-- Relationship entry (`rabbithole::model::relationship::Relationship`),
reduced to its identifier data; links and metadata do not affect the claims
about map shape. -/
structure Relationship where
  data : IdentifierData
  deriving Repr, DecidableEq

/-- Derive-generated `SingleEntity::relationships`
(`src/rabbithole-derive/src/lib.rs:88-111`): to-one fields insert an entry
only when `to_resource_identifier()` yields an identifier; to-many fields
always insert a `Multiple` entry holding the identifiers of their items.
The generated loops run over the to-one fields first, then the to-many
fields, inserting into the map; the map is carried as an association list in
insertion order (struct field names are distinct).

Modelled from the spec: `to_resource_identifier` (defined in
`rabbithole/src/entity.rs`, outside the provided sources) yields the
`(type, id)` identifier of a present entity and nothing for an absent
optional target, so a to-one field is carried here directly as
`Option ResourceIdentifier` and a to-many field as its items' identifiers. -/
def relationshipsToOnes (m : List (String × Relationship)) :
    List (String × Option ResourceIdentifier) → List (String × Relationship)
  | [] => m
  | (n, o) :: rest =>
    match o with
    | some rid => relationshipsToOnes (m ++ [(n, ⟨.single (some rid)⟩)]) rest
    | none => relationshipsToOnes m rest

/-- Second loop of the derive-generated `relationships`: every to-many field
inserts a `Multiple` entry, possibly with an empty identifier list. -/
def relationshipsToManys (m : List (String × Relationship)) :
    List (String × List ResourceIdentifier) → List (String × Relationship)
  | [] => m
  | (n, ids) :: rest => relationshipsToManys (m ++ [(n, ⟨.multiple ids⟩)]) rest

/-- Derive-generated `SingleEntity::relationships`, combining the two loops
starting from the empty map. -/
def relationships (toOnes : List (String × Option ResourceIdentifier))
    (toManys : List (String × List ResourceIdentifier)) : List (String × Relationship) :=
  relationshipsToManys (relationshipsToOnes [] toOnes) toManys

/-- Resource object reduced to its identifying pair; the included set is
deduplicated by `(type, id)`. -/
structure Resource where
  ty : String
  id : String
  deriving Repr, DecidableEq

/-- Result of converting one related entity to a resource
(`SingleEntity::to_resource(uri, fields_query)`), which can fail, yield no
resource (absent optional target), or yield a resource.  `to_resource` lives
in `rabbithole/src/entity.rs`, outside the provided sources; the
derive-generated `included` only threads `uri` and `fields_query` into it,
so each relationship field is carried here together with its conversion
result. -/
abbrev ConvResult := Except Error (Option Resource)

/-- Shape of an entity as seen by the derive-generated `Entity::included`:
the to-one fields (name and conversion result of the target) and the to-many
fields (name and conversion results of the items), in declaration order. -/
structure DeriveEntity where
  toOnes : List (String × ConvResult)
  toManys : List (String × List ConvResult)
  deriving Repr

/-- Insertion into the included set (`HashSet<Resource>::insert` keyed by the
resource): a resource already present — same `(type, id)` — is not added
again, the first insertion wins. -/
def insertIncluded (inc : List Resource) (r : Resource) : List Resource :=
  if inc.contains r then inc else inc ++ [r]

/-- Walk of a list of conversion results: each successfully converted
resource is inserted, an absent target is skipped, a conversion error aborts
(`?` in the generated code). -/
def includeItems : List ConvResult → List Resource → Except Error (List Resource)
  | [], inc => .ok inc
  | conv :: rest, inc =>
    match conv with
    | .ok (some r) => includeItems rest (insertIncluded inc r)
    | .ok none => includeItems rest inc
    | .error err => .error err

/-- First generated loop of `Entity::included`
(`src/rabbithole-derive/src/lib.rs:41-53`): each to-one field is walked —
unconditionally when `include_query` is absent, only when its name is
contained in the query when present. -/
def includeOnes (iq : Option (List String)) :
    List (String × ConvResult) → List Resource → Except Error (List Resource)
  | [], inc => .ok inc
  | (name, conv) :: rest, inc =>
    match iq with
    | some fields =>
      if fields.contains name then
        match conv with
        | .ok (some r) => includeOnes iq rest (insertIncluded inc r)
        | .ok none => includeOnes iq rest inc
        | .error err => .error err
      else includeOnes iq rest inc
    | none =>
      match conv with
      | .ok (some r) => includeOnes iq rest (insertIncluded inc r)
      | .ok none => includeOnes iq rest inc
      | .error err => .error err

/-- Second generated loop of `Entity::included`
(`src/rabbithole-derive/src/lib.rs:54-70`): each to-many field's items are
walked under the same include-query condition. -/
def includeManys (iq : Option (List String)) :
    List (String × List ConvResult) → List Resource → Except Error (List Resource)
  | [], inc => .ok inc
  | (name, items) :: rest, inc =>
    match iq with
    | some fields =>
      if fields.contains name then
        match includeItems items inc with
        | .ok inc' => includeManys iq rest inc'
        | .error err => .error err
      else includeManys iq rest inc
    | none =>
      match includeItems items inc with
      | .ok inc' => includeManys iq rest inc'
      | .error err => .error err

/-- Derive-generated `Entity::included`
(`src/rabbithole-derive/src/lib.rs:35-72`): starting from the empty included
set, walk the to-one fields, then the to-many fields. -/
def Entity.included (e : DeriveEntity) (iq : Option (List String)) :
    Except Error (List Resource) :=
  match includeOnes iq e.toOnes [] with
  | .ok inc => includeManys iq e.toManys inc
  | .error err => .error err

/-- Modelled from the http crate used by the endpoint:
`StatusCode::from_str` accepts exactly three ascii digits denoting a value of
at least 100 and rejects everything else. -/
def parseStatusCode (s : String) : Option Nat :=
  if s.length == 3 && s.data.all Char.isDigit then
    let n := s.data.foldl (fun acc c => acc * 10 + (c.toNat - 48)) 0
    if 100 ≤ n then some n else none
  else none

/-- Embedding of the status computation of `error_to_response`
(`src/rabbithole-endpoint-actix/src/lib.rs:25-30`):
`err.status.as_deref().and_then(|s| s.parse().ok()).unwrap_or(StatusCode::BAD_REQUEST)`
with `BAD_REQUEST = 400`. -/
def errorToResponseStatus (status : Option String) : Nat :=
  (status.bind fun s => parseStatusCode s).getD 400

/-! Helper lemmas about the filter engine. -/

/-- Boolean value of an expression on an entity when evaluation succeeds
(`false` as a dummy in the error case). -/
def evalB (expr : Expr) (e : Attrs) : Bool :=
  match filterOnAttributes expr e with
  | .ok b => b
  | .error _ => false

theorem evalB_eq (expr : Expr) (e : Attrs) (b : Bool)
    (h : filterOnAttributes expr e = .ok b) : evalB expr e = b := by
  simp [evalB, h]

theorem filterOneKey_ok_of_evals (ety : String) (expr : Expr) (es : List Attrs)
    (h : ∀ e ∈ es, ∃ b, filterOnAttributes expr e = .ok b) :
    filterOneKey ety ety expr es = .ok (es.filter (evalB expr)) := by
  induction es with
  | nil => simp [filterOneKey]
  | cons e es ih =>
    obtain ⟨b, hb⟩ := h e (List.mem_cons_self e es)
    have ih' := ih fun x hx => h x (List.mem_cons_of_mem e hx)
    cases b <;>
      simp [filterOneKey, hb, ih', List.filter_cons, evalB_eq expr e _ hb, Except.map]

theorem evals_ok_of_filterOneKey_ok (ety key : String) (expr : Expr) (es : List Attrs)
    (l : List Attrs) (h : filterOneKey ety key expr es = .ok l) :
    ∀ e ∈ es, ∃ b, filterOnAttributes expr e = .ok b := by
  induction es generalizing l with
  | nil => simp
  | cons e es ih =>
    intro x hx
    rw [filterOneKey] at h
    cases htk : ety == key <;> rw [htk] at h
    · simp at h
    · cases hee : filterOnAttributes expr e <;> rw [hee] at h
      · simp at h
      · rcases List.mem_cons.mp hx with hx | hx
        · subst hx
          rename_i b
          cases b
          · exact ⟨false, hee⟩
          · exact ⟨true, hee⟩
        · rename_i b
          cases b
          · exact ih l h x hx
          · cases hrec : filterOneKey ety key expr es <;> rw [hrec] at h
            · simp [Except.map] at h
            · exact ih _ hrec x hx

theorem filterEntries_single (ety k : String) (x : Expr) (es : List Attrs) :
    filterEntries ety [(k, x)] es = filterOneKey ety k x es := by
  cases h : filterOneKey ety k x es <;> simp [filterEntries, h]

theorem filterOnAttributes_or (A B : Expr) (e : Attrs) (a b : Bool)
    (hA : filterOnAttributes A e = .ok a) (hB : filterOnAttributes B e = .ok b) :
    filterOnAttributes (.node .or A B) e = .ok (a || b) := by
  cases a <;> simp [filterOnAttributes, hA, hB, Bind.bind, Except.bind, Pure.pure, Except.pure]

theorem filterOneKey_err (ety : String) (expr : Expr) (es : List Attrs)
    (h : ∃ e ∈ es, ∃ err, filterOnAttributes expr e = .error err) :
    ∃ err, (∃ e ∈ es, filterOnAttributes expr e = .error err) ∧
      filterOneKey ety ety expr es = .error err := by
  induction es with
  | nil => simp at h
  | cons e es ih =>
    cases hee : filterOnAttributes expr e with
    | error err =>
      refine ⟨err, ⟨e, List.mem_cons_self e es, hee⟩, ?_⟩
      rw [filterOneKey, beq_self_eq_true, hee]
    | ok b =>
      have h' : ∃ x ∈ es, ∃ err, filterOnAttributes expr x = .error err := by
        obtain ⟨x, hx, err, hxe⟩ := h
        rcases List.mem_cons.mp hx with hx | hx
        · subst hx; rw [hee] at hxe; exact absurd hxe (by simp)
        · exact ⟨x, hx, err, hxe⟩
      obtain ⟨err, ⟨x, hx, hxe⟩, hrec⟩ := ih h'
      refine ⟨err, ⟨x, List.mem_cons_of_mem e hx, hxe⟩, ?_⟩
      rw [filterOneKey, beq_self_eq_true, hee]
      cases b <;> simp [hrec, Except.map]

theorem filterOnAttributes_equal_leaf (sel x : String) (e : Attrs) (f : AttrValue) (b : Bool)
    (hf : getField e sel = some f) (hb : eqWithStr f x = .ok b) :
    filterOnAttributes (.item ⟨sel, .equal, [x]⟩) e = .ok b := by
  simp [filterOnAttributes, hf, hb]

theorem filterOnAttributes_notEqual_leaf (sel x : String) (e : Attrs) (f : AttrValue) (b : Bool)
    (hf : getField e sel = some f) (hb : eqWithStr f x = .ok b) :
    filterOnAttributes (.item ⟨sel, .notEqual, [x]⟩) e = .ok (!b) := by
  simp [filterOnAttributes, hf, hb, Bind.bind, Except.bind, Pure.pure, Except.pure]

/-- C3: for every collection and sub-expressions `A`, `B` over the entities'
own type, filtering with `A or B` succeeds whenever filtering with `A` and
with `B` does, and its result is exactly the set union of the two separate
results. -/
theorem filter_or_is_union (ety : String) (A B : Expr) (es la lb : List Attrs)
    (hA : (RsqlFilterData.mk [(ety, A)]).filter ety es = .ok la)
    (hB : (RsqlFilterData.mk [(ety, B)]).filter ety es = .ok lb) :
    ∃ l, (RsqlFilterData.mk [(ety, .node .or A B)]).filter ety es = .ok l ∧
      ∀ x, x ∈ l ↔ (x ∈ la ∨ x ∈ lb) := by
  rw [RsqlFilterData.filter, filterEntries_single] at hA hB
  have hAe := evals_ok_of_filterOneKey_ok _ _ _ _ _ hA
  have hBe := evals_ok_of_filterOneKey_ok _ _ _ _ _ hB
  have hOr : ∀ e ∈ es, ∃ b, filterOnAttributes (.node .or A B) e = .ok b := by
    intro e he
    obtain ⟨a, ha⟩ := hAe e he
    obtain ⟨b, hb⟩ := hBe e he
    exact ⟨a || b, filterOnAttributes_or A B e a b ha hb⟩
  have hla : la = es.filter (evalB A) := by
    have h2 := filterOneKey_ok_of_evals ety A es hAe
    rw [hA] at h2
    exact Except.ok.inj h2
  have hlb : lb = es.filter (evalB B) := by
    have h2 := filterOneKey_ok_of_evals ety B es hBe
    rw [hB] at h2
    exact Except.ok.inj h2
  refine ⟨es.filter (evalB (.node .or A B)), ?_, ?_⟩
  · rw [RsqlFilterData.filter, filterEntries_single]
    exact filterOneKey_ok_of_evals ety _ es hOr
  · intro x
    subst hla hlb
    simp only [List.mem_filter]
    constructor
    · rintro ⟨hxes, hb⟩
      obtain ⟨a, ha⟩ := hAe x hxes
      obtain ⟨b, hb'⟩ := hBe x hxes
      rw [evalB_eq _ _ _ (filterOnAttributes_or A B x a b ha hb')] at hb
      have ea := evalB_eq _ _ _ ha
      have eb := evalB_eq _ _ _ hb'
      rcases (by simpa using hb : a = true ∨ b = true) with h1 | h1
      · exact Or.inl ⟨hxes, by rw [ea, h1]⟩
      · exact Or.inr ⟨hxes, by rw [eb, h1]⟩
    · rintro (⟨hxes, hb⟩ | ⟨hxes, hb⟩) <;>
      · obtain ⟨a, ha⟩ := hAe x hxes
        obtain ⟨b, hb'⟩ := hBe x hxes
        refine ⟨hxes, ?_⟩
        rw [evalB_eq _ _ _ (filterOnAttributes_or A B x a b ha hb')]
        have ea := evalB_eq _ _ _ ha
        have eb := evalB_eq _ _ _ hb'
        simp_all

theorem filter_or_is_union_witness :
    ∃ l, (RsqlFilterData.mk [("dogs", .node .or (.item ⟨"age", .equal, ["1"]⟩)
        (.item ⟨"age", .equal, ["2"]⟩))]).filter "dogs"
        [[("age", AttrValue.num 1)], [("age", AttrValue.num 2)]] = .ok l ∧
      ∀ x, x ∈ l ↔ (x ∈ [[("age", AttrValue.num 1)]] ∨ x ∈ [[("age", AttrValue.num 2)]]) :=
  filter_or_is_union "dogs" (.item ⟨"age", .equal, ["1"]⟩) (.item ⟨"age", .equal, ["2"]⟩)
    [[("age", AttrValue.num 1)], [("age", AttrValue.num 2)]]
    [[("age", AttrValue.num 1)]] [[("age", AttrValue.num 2)]] rfl rfl

/-- C5: filtering with `selector == x` and with `selector != x` partitions the
collection when the selector is present on every entity with defined equality
against the argument: no entity lands in both results and every entity lands
in one of them. -/
theorem filter_eq_ne_partition (ety sel x : String) (es : List Attrs)
    (h : ∀ e ∈ es, ∃ f b, getField e sel = some f ∧ eqWithStr f x = .ok b) :
    ∃ l1 l2,
      (RsqlFilterData.mk [(ety, .item ⟨sel, .equal, [x]⟩)]).filter ety es = .ok l1 ∧
      (RsqlFilterData.mk [(ety, .item ⟨sel, .notEqual, [x]⟩)]).filter ety es = .ok l2 ∧
      (∀ e, e ∈ l1 → e ∉ l2) ∧ (∀ e ∈ es, e ∈ l1 ∨ e ∈ l2) := by
  have hEq : ∀ e ∈ es, ∃ b, filterOnAttributes (.item ⟨sel, .equal, [x]⟩) e = .ok b := by
    intro e he
    obtain ⟨f, b, hf, hb⟩ := h e he
    exact ⟨b, filterOnAttributes_equal_leaf sel x e f b hf hb⟩
  have hNe : ∀ e ∈ es, ∃ b, filterOnAttributes (.item ⟨sel, .notEqual, [x]⟩) e = .ok b := by
    intro e he
    obtain ⟨f, b, hf, hb⟩ := h e he
    exact ⟨!b, filterOnAttributes_notEqual_leaf sel x e f b hf hb⟩
  have hflip : ∀ e ∈ es,
      evalB (.item ⟨sel, .notEqual, [x]⟩) e = !(evalB (.item ⟨sel, .equal, [x]⟩) e) := by
    intro e he
    obtain ⟨f, b, hf, hb⟩ := h e he
    rw [evalB_eq _ _ _ (filterOnAttributes_equal_leaf sel x e f b hf hb),
      evalB_eq _ _ _ (filterOnAttributes_notEqual_leaf sel x e f b hf hb)]
  refine ⟨es.filter (evalB (.item ⟨sel, .equal, [x]⟩)),
    es.filter (evalB (.item ⟨sel, .notEqual, [x]⟩)), ?_, ?_, ?_, ?_⟩
  · rw [RsqlFilterData.filter, filterEntries_single]
    exact filterOneKey_ok_of_evals ety _ es hEq
  · rw [RsqlFilterData.filter, filterEntries_single]
    exact filterOneKey_ok_of_evals ety _ es hNe
  · intro e h1 h2
    rw [List.mem_filter] at h1 h2
    rw [hflip e h1.1, h1.2] at h2
    simp at h2
  · intro e he
    cases hev : evalB (.item ⟨sel, .equal, [x]⟩) e
    · exact Or.inr (List.mem_filter.mpr ⟨he, by rw [hflip e he, hev]; rfl⟩)
    · exact Or.inl (List.mem_filter.mpr ⟨he, hev⟩)

theorem filter_eq_ne_partition_witness :
    ∃ l1 l2,
      (RsqlFilterData.mk [("dogs", .item ⟨"age", .equal, ["1"]⟩)]).filter "dogs"
          [[("age", AttrValue.num 1)], [("age", AttrValue.num 2)]] = .ok l1 ∧
      (RsqlFilterData.mk [("dogs", .item ⟨"age", .notEqual, ["1"]⟩)]).filter "dogs"
          [[("age", AttrValue.num 1)], [("age", AttrValue.num 2)]] = .ok l2 ∧
      (∀ e, e ∈ l1 → e ∉ l2) ∧
      (∀ e ∈ [[("age", AttrValue.num 1)], [("age", AttrValue.num 2)]], e ∈ l1 ∨ e ∈ l2) :=
  filter_eq_ne_partition "dogs" "age" "1"
    [[("age", AttrValue.num 1)], [("age", AttrValue.num 2)]]
    (by
      intro e he
      simp only [List.mem_cons, List.not_mem_nil, or_false] at he
      rcases he with rfl | rfl
      · exact ⟨.num 1, true, rfl, rfl⟩
      · exact ⟨.num 2, false, rfl, rfl⟩)

/-- C1: evaluation of the `IN`/`OUT` branches of `filter_on_attributes` at a
concrete input on which they contradict membership semantics.  The argument
`"x"` is not equal to the attribute value `"abc"` (first conjunct), yet `IN`
evaluates to `true` (second conjunct), because the source tests
`eq_with_str(..).is_ok()` — whether the comparison succeeded — instead of the
equality's value.  Likewise `7` is not equal to `5` (third conjunct), so `OUT`
should evaluate to `true`, yet it evaluates to `false` (fourth conjunct). -/
theorem in_out_membership_evaluation :
    eqWithStr (.str "abc") "x" = .ok false ∧
    filterOnAttributes (.item ⟨"name", .inSet, ["x"]⟩) [("name", .str "abc")] = .ok true ∧
    eqWithStr (.num 5) "7" = .ok false ∧
    filterOnAttributes (.item ⟨"age", .outSet, ["7"]⟩) [("age", .num 5)] = .ok false :=
  ⟨rfl, rfl, rfl, rfl⟩

theorem newEntries_dotted (parse : String → Option Expr) (params : List (String × String))
    (hdot : ∃ p ∈ params, (Prod.fst p).data.contains '.' = true)
    (hparse : ∀ p ∈ params, (parse (Prod.snd p)).isSome) :
    ∃ k, k.data.contains '.' = true ∧
      newEntries parse params = .error (.relationshipPathNotSupported k) := by
  induction params with
  | nil => simp at hdot
  | cons p rest ih =>
    obtain ⟨k0, v0⟩ := p
    by_cases hk : k0.data.contains '.' = true
    · refine ⟨k0, hk, ?_⟩
      simp only [newEntries]
      rw [if_pos hk]
    · have hps : (parse v0).isSome := hparse (k0, v0) (List.mem_cons_self _ _)
      obtain ⟨e0, he0⟩ := Option.isSome_iff_exists.mp hps
      have hdot' : ∃ q ∈ rest, (Prod.fst q).data.contains '.' = true := by
        obtain ⟨q, hq, hqdot⟩ := hdot
        rcases List.mem_cons.mp hq with h | h
        · subst h; exact absurd hqdot hk
        · exact ⟨q, h, hqdot⟩
      obtain ⟨k, hk', hrec⟩ := ih hdot' (fun q hq => hparse q (List.mem_cons_of_mem _ hq))
      refine ⟨k, hk', ?_⟩
      simp only [newEntries]
      rw [if_neg hk, he0, hrec]
      rfl

/-- C6: relationship-path filtering is a reported, typed error.  First: when
some parameter key contains a dot (and the raw values themselves parse, so no
earlier parse error preempts the loop), `RsqlFilterData::new` fails with
`RelationshipPathNotSupported` naming a dotted key.  Second: evaluating a
filter whose key differs from the collection's own type name on a nonempty
collection fails with `RsqlFilterOnRelatedNotImplemented`. -/
theorem relationship_path_filtering_is_error :
    (∀ (parse : String → Option Expr) (params : List (String × String)),
      (∃ p ∈ params, (Prod.fst p).data.contains '.' = true) →
      (∀ p ∈ params, (parse (Prod.snd p)).isSome) →
      ∃ k, k.data.contains '.' = true ∧
        RsqlFilterData.new parse params = .error (.relationshipPathNotSupported k)) ∧
    (∀ (ety key : String) (expr : Expr) (es : List Attrs), ety ≠ key → es ≠ [] →
      (RsqlFilterData.mk [(key, expr)]).filter ety es =
        .error .rsqlFilterOnRelatedNotImplemented) := by
  constructor
  · intro parse params hdot hparse
    obtain ⟨k, hk, hne⟩ := newEntries_dotted parse params hdot hparse
    exact ⟨k, hk, by simp [RsqlFilterData.new, hne, Except.map]⟩
  · intro ety key expr es hne hes
    obtain ⟨e, es', rfl⟩ := List.exists_cons_of_ne_nil hes
    rw [RsqlFilterData.filter, filterEntries_single, filterOneKey]
    have hf : (ety == key) = false := beq_eq_false_iff_ne.mpr hne
    rw [hf]

theorem relationship_path_filtering_is_error_witness :
    (∃ k : String, k.data.contains '.' = true ∧
      RsqlFilterData.new (fun _ => some (.item ⟨"a", .equal, ["1"]⟩)) [("dog.x", "v")] =
        .error (.relationshipPathNotSupported k)) ∧
    (RsqlFilterData.mk [("cats", .item ⟨"a", .equal, ["1"]⟩)]).filter "dogs" [[("a", .num 1)]] =
      .error .rsqlFilterOnRelatedNotImplemented :=
  ⟨relationship_path_filtering_is_error.1 _ [("dog.x", "v")]
      ⟨("dog.x", "v"), by decide, by decide⟩ (fun _ _ => rfl),
   relationship_path_filtering_is_error.2 "dogs" "cats" _ _ (by decide) (by decide)⟩

/-- C8: a leaf whose selector names no attribute of the entity evaluates to
the `FieldNotExist` error, whatever the comparison operator and arguments. -/
theorem missing_attribute_is_fieldNotExist (e : Attrs) (sel : String) (comp : Comparison)
    (args : List String) (h : getField e sel = none) :
    filterOnAttributes (.item ⟨sel, comp, args⟩) e = .error (.fieldNotExist sel) := by
  simp [filterOnAttributes, h]

theorem missing_attribute_is_fieldNotExist_witness :
    getField [("age", .num 1)] "name" = none ∧
    filterOnAttributes (.item ⟨"name", .inSet, ["1"]⟩) [("age", .num 1)] =
      .error (.fieldNotExist "name") :=
  ⟨rfl, missing_attribute_is_fieldNotExist _ "name" .inSet ["1"] rfl⟩

/-- C9: the HTTP status of an error response is the declared status string
parsed as a status code, and 400 whenever the declared status is absent or
unparseable. -/
theorem error_response_status (st : Option String) :
    (st = none → errorToResponseStatus st = 400) ∧
    (∀ s, st = some s → parseStatusCode s = none → errorToResponseStatus st = 400) ∧
    (∀ s n, st = some s → parseStatusCode s = some n → errorToResponseStatus st = n) :=
  ⟨fun h => by simp [errorToResponseStatus, h],
   fun s hs hp => by simp [errorToResponseStatus, hs, hp],
   fun s n hs hp => by simp [errorToResponseStatus, hs, hp]⟩

theorem error_response_status_witness :
    errorToResponseStatus (some "404") = 404 ∧
    errorToResponseStatus (some "not-a-code") = 400 ∧
    errorToResponseStatus none = 400 :=
  ⟨(error_response_status (some "404")).2.2 "404" 404 rfl rfl,
   (error_response_status (some "not-a-code")).2.1 "not-a-code" rfl rfl,
   (error_response_status none).1 rfl⟩

theorem filterEntries_nil_entities (ety : String) (entries : List (String × Expr)) :
    filterEntries ety entries [] = .ok [] := by
  induction entries with
  | nil => rfl
  | cons p rest ih =>
    obtain ⟨k, x⟩ := p
    simp [filterEntries, filterOneKey, ih]

/-- C10: applying any constructed filter — whatever its keys and expressions —
to an empty collection succeeds with the empty collection, because type
mismatch and evaluation errors arise only per element. -/
theorem filter_empty_collection_ok (ety : String) (d : RsqlFilterData) :
    d.filter ety [] = .ok [] :=
  filterEntries_nil_entities ety d.entries

/-! Helper lemmas about the derive-generated relationships and included
walks. -/

/-- Entries contributed by the to-one loop: one `Single (Some id)` entry per
field whose target is present. -/
def onesEntries (ones : List (String × Option ResourceIdentifier)) :
    List (String × Relationship) :=
  ones.filterMap fun p => (Prod.snd p).map fun rid => (Prod.fst p, ⟨.single (some rid)⟩)

/-- Entries contributed by the to-many loop: one `Multiple` entry per field. -/
def manysEntries (manys : List (String × List ResourceIdentifier)) :
    List (String × Relationship) :=
  manys.map fun p => (Prod.fst p, ⟨.multiple (Prod.snd p)⟩)

theorem relationshipsToOnes_eq (m : List (String × Relationship))
    (ones : List (String × Option ResourceIdentifier)) :
    relationshipsToOnes m ones = m ++ onesEntries ones := by
  induction ones generalizing m with
  | nil => simp [relationshipsToOnes, onesEntries]
  | cons p rest ih =>
    obtain ⟨n, o⟩ := p
    cases o <;> simp [relationshipsToOnes, onesEntries, ih, List.filterMap_cons]

theorem relationshipsToManys_eq (m : List (String × Relationship))
    (manys : List (String × List ResourceIdentifier)) :
    relationshipsToManys m manys = m ++ manysEntries manys := by
  induction manys generalizing m with
  | nil => simp [relationshipsToManys, manysEntries]
  | cons p rest ih =>
    obtain ⟨n, ids⟩ := p
    simp [relationshipsToManys, manysEntries, ih]

theorem relationships_eq (toOnes : List (String × Option ResourceIdentifier))
    (toManys : List (String × List ResourceIdentifier)) :
    relationships toOnes toManys = onesEntries toOnes ++ manysEntries toManys := by
  rw [relationships, relationshipsToOnes_eq, relationshipsToManys_eq, List.nil_append]

/-- C2 counterexample: an entity with a single to-one relationship field
`"master"` whose target is absent produces a relationships map with no
`"master"` entry at all — the lookup is `none`, not an explicit
`Single(None)`. -/
theorem relationships_absent_toOne_entry_omitted :
    (relationships [("master", none)] []).lookup "master" = none := rfl

/-- C2 (amended): the relationships map carries an entry per to-one field
exactly when the target is present — an absent to-one target yields an
omitted entry, not an explicit `Single(None)` — and an entry per to-many
field holding the (possibly empty) identifier list.  Every entry is either a
`Single (Some id)` from a present to-one target or a `Multiple` list from a
to-many field. -/
theorem relationships_characterization
    (toOnes : List (String × Option ResourceIdentifier))
    (toManys : List (String × List ResourceIdentifier)) :
    (relationships toOnes toManys).map Prod.fst =
      ((toOnes.filter fun p => (Prod.snd p).isSome).map Prod.fst) ++
        toManys.map Prod.fst ∧
    ∀ n r, (n, r) ∈ relationships toOnes toManys →
      (∃ rid, (n, some rid) ∈ toOnes ∧ r = ⟨.single (some rid)⟩) ∨
      (∃ ids, (n, ids) ∈ toManys ∧ r = ⟨.multiple ids⟩) := by
  constructor
  · rw [relationships_eq, List.map_append]
    congr 1
    · induction toOnes with
      | nil => rfl
      | cons p rest ih =>
        obtain ⟨n, o⟩ := p
        cases o <;>
          · simp [onesEntries, List.filterMap_cons, List.filter_cons]
            exact ih
    · simp [manysEntries]
  · intro n r hmem
    rw [relationships_eq] at hmem
    rcases List.mem_append.mp hmem with h | h
    · left
      obtain ⟨p, hp, heq⟩ := List.mem_filterMap.mp h
      obtain ⟨n', o⟩ := p
      cases o with
      | none => simp at heq
      | some rid =>
        simp only [Option.map_some'] at heq
        obtain ⟨hn, hr⟩ := Prod.mk.injEq .. ▸ Option.some.inj heq
        exact ⟨rid, by rwa [← hn], hr.symm⟩
    · right
      obtain ⟨p, hp, heq⟩ := List.mem_map.mp h
      obtain ⟨n', ids⟩ := p
      obtain ⟨hn, hr⟩ := Prod.mk.injEq .. ▸ heq
      exact ⟨ids, by rwa [← hn], hr.symm⟩

theorem relationships_characterization_witness :
    (∃ rid, ("master", some rid) ∈
        [("master", some (ResourceIdentifier.mk "people" "1")), ("friend", none)] ∧
      (Relationship.mk (.single (some (ResourceIdentifier.mk "people" "1")))) =
        ⟨.single (some rid)⟩) ∨
    (∃ ids, ("master", ids) ∈ [("dogs", ([] : List ResourceIdentifier))] ∧
      (Relationship.mk (.single (some (ResourceIdentifier.mk "people" "1")))) =
        ⟨.multiple ids⟩) :=
  (relationships_characterization
      [("master", some ⟨"people", "1"⟩), ("friend", none)] [("dogs", [])]).2
    "master" ⟨.single (some ⟨"people", "1"⟩)⟩ (by decide)

theorem includeItems_append (a b : List ConvResult) (inc : List Resource) :
    includeItems (a ++ b) inc =
      match includeItems a inc with
      | .ok inc' => includeItems b inc'
      | .error err => .error err := by
  induction a generalizing inc with
  | nil => simp [includeItems]
  | cons conv rest ih =>
    cases conv with
    | ok o => cases o <;> simp [includeItems, ih]
    | error err => simp [includeItems]

theorem includeOnes_none (ones : List (String × ConvResult)) (inc : List Resource) :
    includeOnes none ones inc = includeItems (ones.map Prod.snd) inc := by
  induction ones generalizing inc with
  | nil => simp [includeOnes, includeItems]
  | cons p rest ih =>
    obtain ⟨n, conv⟩ := p
    cases conv with
    | ok o => cases o <;> simp [includeOnes, includeItems, ih]
    | error err => simp [includeOnes, includeItems]

theorem includeManys_none (manys : List (String × List ConvResult)) (inc : List Resource) :
    includeManys none manys inc = includeItems ((manys.map Prod.snd).flatten) inc := by
  induction manys generalizing inc with
  | nil => simp [includeManys, includeItems]
  | cons p rest ih =>
    obtain ⟨n, items⟩ := p
    simp only [List.map_cons, List.flatten_cons, includeManys, includeItems_append]
    cases h : includeItems items inc <;> simp [h, ih]

theorem includeOnes_some (q : List String) (ones : List (String × ConvResult))
    (inc : List Resource) :
    includeOnes (some q) ones inc =
      includeOnes none (ones.filter fun p => q.contains (Prod.fst p)) inc := by
  induction ones generalizing inc with
  | nil => simp [includeOnes]
  | cons p rest ih =>
    obtain ⟨n, conv⟩ := p
    by_cases hq : n ∈ q
    · cases conv with
      | ok o =>
        cases o <;>
          simp [includeOnes, List.filter_cons, hq, ih]
      | error err =>
        simp [includeOnes, List.filter_cons, hq]
    · simp [includeOnes, List.filter_cons, hq, ih]

theorem includeManys_some (q : List String) (manys : List (String × List ConvResult))
    (inc : List Resource) :
    includeManys (some q) manys inc =
      includeManys none (manys.filter fun p => q.contains (Prod.fst p)) inc := by
  induction manys generalizing inc with
  | nil => simp [includeManys]
  | cons p rest ih =>
    obtain ⟨n, items⟩ := p
    by_cases hq : n ∈ q
    · cases h : includeItems items inc <;>
        simp [includeManys, List.filter_cons, hq, h, ih]
    · simp [includeManys, List.filter_cons, hq, ih]

/-- Restriction of an entity's relationship fields to the names contained in
an include query (exact name match). -/
def restrictEntity (e : DeriveEntity) (q : List String) : DeriveEntity :=
  ⟨e.toOnes.filter fun p => q.contains (Prod.fst p),
   e.toManys.filter fun p => q.contains (Prod.fst p)⟩

/-- Walk of every relationship of the entity one level deep, stated from the
spec's words (default-include-all policy): the conversion results of every
to-one field and then of every to-many field's items, in declaration order,
folded into the included set starting from empty — each successfully
converted resource inserted, errors aborting. -/
def walkAllRelationships (e : DeriveEntity) : Except Error (List Resource) :=
  includeItems (e.toOnes.map Prod.snd ++ (e.toManys.map Prod.snd).flatten) []

theorem included_none_eq_walkAll (e : DeriveEntity) :
    Entity.included e none = walkAllRelationships e := by
  rw [Entity.included, walkAllRelationships, includeItems_append, includeOnes_none]
  cases h : includeItems (e.toOnes.map Prod.snd) [] <;> simp [h, includeManys_none]

/-- C4: the derive-generated `included` walks relationships exactly as the
default-include-all policy prescribes — with no include query every to-one
and to-many relationship is walked one level deep, and with an include query
present exactly the relationships whose names the query contains (exact name
match) are walked. -/
theorem included_default_walks_all_else_named (e : DeriveEntity) (q : List String) :
    Entity.included e none = walkAllRelationships e ∧
    Entity.included e (some q) = walkAllRelationships (restrictEntity e q) := by
  refine ⟨included_none_eq_walkAll e, ?_⟩
  have h2 : Entity.included e (some q) = Entity.included (restrictEntity e q) none := by
    rw [Entity.included, Entity.included, includeOnes_some, restrictEntity]
    cases h : includeOnes none (e.toOnes.filter fun p => q.contains (Prod.fst p)) [] <;>
      simp [h, includeManys_some]
  rw [h2, included_none_eq_walkAll]

theorem includeItems_err (convs : List ConvResult)
    (h : ∃ c ∈ convs, ∃ err, c = .error err) :
    ∃ err, (Except.error err) ∈ convs ∧ ∀ inc, includeItems convs inc = .error err := by
  induction convs with
  | nil => simp at h
  | cons conv rest ih =>
    cases conv with
    | error err =>
      exact ⟨err, List.mem_cons_self _ _, fun inc => by simp [includeItems]⟩
    | ok o =>
      have h' : ∃ c ∈ rest, ∃ err, c = .error err := by
        obtain ⟨c, hc, err, hce⟩ := h
        rcases List.mem_cons.mp hc with hc | hc
        · subst hc; simp at hce
        · exact ⟨c, hc, err, hce⟩
      obtain ⟨err, hmem, hall⟩ := ih h'
      exact ⟨err, List.mem_cons_of_mem _ hmem,
        fun inc => by cases o <;> simp [includeItems, hall]⟩

/-- C7: errors abort the whole call.  First: if evaluating the filter
expression on some element of the collection errors, the whole filter call
returns that element's error, not a filtered sub-collection.  Second: if
converting some related entity inside the default `included` walk errors,
`included` returns that conversion's error and no partial included set. -/
theorem errors_abort_filter_and_included :
    (∀ (ety : String) (expr : Expr) (es : List Attrs),
      (∃ e ∈ es, ∃ err, filterOnAttributes expr e = .error err) →
      ∃ err, (∃ e ∈ es, filterOnAttributes expr e = .error err) ∧
        (RsqlFilterData.mk [(ety, expr)]).filter ety es = .error err) ∧
    (∀ e : DeriveEntity,
      ((∃ p ∈ e.toOnes, ∃ err, Prod.snd p = Except.error err) ∨
       (∃ p ∈ e.toManys, ∃ err, Except.error err ∈ Prod.snd p)) →
      ∃ err, Entity.included e none = .error err ∧
        ((∃ p ∈ e.toOnes, Prod.snd p = Except.error err) ∨
         (∃ p ∈ e.toManys, Except.error err ∈ Prod.snd p))) := by
  constructor
  · intro ety expr es h
    obtain ⟨err, hmem, hfk⟩ := filterOneKey_err ety expr es h
    exact ⟨err, hmem, by rw [RsqlFilterData.filter, filterEntries_single, hfk]⟩
  · intro e h
    have h' : ∃ c ∈ e.toOnes.map Prod.snd ++ (e.toManys.map Prod.snd).flatten,
        ∃ err, c = Except.error err := by
      rcases h with ⟨p, hp, err, hpe⟩ | ⟨p, hp, err, hin⟩
      · exact ⟨.error err, List.mem_append_left _ (List.mem_map.mpr ⟨p, hp, hpe⟩), err, rfl⟩
      · exact ⟨.error err,
          List.mem_append_right _
            (List.mem_flatten.mpr ⟨Prod.snd p, List.mem_map.mpr ⟨p, hp, rfl⟩, hin⟩), err, rfl⟩
    obtain ⟨err, hmem, hall⟩ := includeItems_err _ h'
    refine ⟨err, by rw [included_none_eq_walkAll, walkAllRelationships]; exact hall [], ?_⟩
    rcases List.mem_append.mp hmem with hm | hm
    · obtain ⟨p, hp, hpe⟩ := List.mem_map.mp hm
      exact Or.inl ⟨p, hp, hpe⟩
    · obtain ⟨s, hs, hin⟩ := List.mem_flatten.mp hm
      obtain ⟨p, hp, hps⟩ := List.mem_map.mp hs
      exact Or.inr ⟨p, hp, hps ▸ hin⟩

theorem errors_abort_filter_and_included_witness :
    (∃ err, (∃ e ∈ [([] : Attrs)], filterOnAttributes (.item ⟨"x", .equal, ["1"]⟩) e =
        .error err) ∧
      (RsqlFilterData.mk [("dogs", .item ⟨"x", .equal, ["1"]⟩)]).filter "dogs" [[]] =
        .error err) ∧
    (∃ err, Entity.included ⟨[("master", .error (.fieldNotExist "m"))], []⟩ none =
        .error err ∧
      ((∃ p ∈ [("master", (Except.error (Error.fieldNotExist "m") : ConvResult))],
          Prod.snd p = Except.error err) ∨
       (∃ p ∈ ([] : List (String × List ConvResult)), Except.error err ∈ Prod.snd p))) :=
  ⟨errors_abort_filter_and_included.1 "dogs" (.item ⟨"x", .equal, ["1"]⟩) [[]]
      ⟨[], List.mem_singleton.mpr rfl, .fieldNotExist "x", rfl⟩,
   errors_abort_filter_and_included.2 ⟨[("master", .error (.fieldNotExist "m"))], []⟩
      (Or.inl ⟨("master", .error (.fieldNotExist "m")), List.mem_singleton.mpr rfl,
        .fieldNotExist "m", rfl⟩)⟩

end Rabbithole
